import Mathlib

/-!
Verification development for the pdf-compressor repository
(src/pdf-compressor.py).  The Python program drives Ghostscript at four
quality presets and keeps a best candidate; the definitions below are a
shallow embedding of that code.

Modelling conventions:
* file sizes are rationals (megabytes, as computed by `_get_file_size_mb`;
  the program only compares sizes, so exact rational arithmetic is a
  faithful stand-in for Python floats on these comparisons);
* the external Ghostscript invocation is an oracle: each preset is mapped
  to an `AttemptResult` recording what `_compress_pdf` returned (success
  flag and message), whether the output file exists afterwards
  (`os.path.exists(temp_output)`), and its size;
* the file system is a list of path strings; paths inside the run-scoped
  temporary directory carry the prefix "TMP/", the declared output path is
  "OUT".  `tempfile.TemporaryDirectory.__exit__` is modelled as removing
  every path under "TMP/" (its documented semantics, running on every exit
  path of the with-block).
-/

/-- The four Ghostscript quality presets, in the order of `quality_order`
(line 119 of the source): low fidelity first. -/
inductive Quality where
  | screen
  | ebook
  | printer
  | prepress
deriving DecidableEq, Repr

/-- quality_order = ['screen', 'ebook', 'printer', 'prepress'] -/
def qualityOrder : List Quality := [.screen, .ebook, .printer, .prepress]

/-- The name of a preset, used to build the temporary file names. -/
def qualName : Quality → String
  | .screen => "screen"
  | .ebook => "ebook"
  | .printer => "printer"
  | .prepress => "prepress"

instance : BEq Quality := ⟨fun a b => decide (a = b)⟩

instance : LawfulBEq Quality where
  eq_of_beq h := of_decide_eq_true h
  rfl := by intro a; exact decide_eq_true rfl

/-- quality_order.index(q), the rank used by the selection policy. -/
def qualityIndex (q : Quality) : Nat := qualityOrder.indexOf q

/-- Path prefix standing for the run-scoped temporary directory. -/
def tmpDirName : String := "TMP/"

/-- temp_output = os.path.join(temp_dir, f"compressed_(quality).pdf") -/
def compressedPath (q : Quality) : String := "TMP/compressed_" ++ qualName q ++ ".pdf"

/-- best_file = os.path.join(temp_dir, f"best_(quality).pdf") -/
def bestPath (q : Quality) : String := "TMP/best_" ++ qualName q ++ ".pdf"

/-- best_file = os.path.join(temp_dir, f"fallback_(quality).pdf") -/
def fallbackPath (q : Quality) : String := "TMP/fallback_" ++ qualName q ++ ".pdf"

/-- Python str.lower, restricted to the characters the program compares:
lower-case each character of the string. -/
def lowerStr (s : String) : String := ⟨s.data.map Char.toLower⟩

/-- Substring containment on character lists (Python `needle in hay`). -/
def listContainsSub (needle : List Char) : List Char → Bool
  | [] => needle.isEmpty
  | c :: t => needle.isPrefixOf (c :: t) || listContainsSub needle t

/-- Python `needle in hay` on strings. -/
def strContainsSub (hay needle : String) : Bool := listContainsSub needle.data hay.data

/-- Python `needle in hay.lower()` (case-insensitive containment). -/
def containsCI (hay needle : String) : Bool := strContainsSub (lowerStr hay) needle

/-- Python `pre` as a path prefix of `s` (s lives under directory pre). -/
def strStartsWith (pre s : String) : Bool := pre.data.isPrefixOf s.data

/-- Outcome of one `subprocess.run` of Ghostscript, as observed by
`_compress_pdf`: normal completion with exit code and both streams, the
`TimeoutExpired` branch, or any other raised exception. -/
inductive ExecOutcome where
  | completed (returncode : Int) (stdout stderr : String)
  | timedOut
  | raised (message : String)
deriving DecidableEq, Repr

/-- The `timeout=60` argument passed to `subprocess.run` (seconds). -/
def timeoutLimitSeconds : Nat := 60

/-- Message returned on returncode 0. -/
def successMsg : String := "成功"

/-- Message when both streams are empty on a non-zero exit. -/
def unknownErrorMsg : String := "不明なエラー"

/-- Message returned from the `TimeoutExpired` handler. -/
def timeoutMsg : String := "タイムアウト（60秒）"

/-- Python `a or b` on strings: `b` when `a` is empty. -/
def pyOr (a b : String) : String := if a = "" then b else a

/-- Embedding of `_compress_pdf` (lines 46-87): turns the engine outcome
into the (success, message) pair the selector consumes.  It is a total
function: engine-level failure never raises. -/
def compress_pdf : ExecOutcome → Bool × String
  | .completed rc out err =>
      if rc = 0 then (true, successMsg)
      else (false, pyOr err (pyOr out unknownErrorMsg))
  | .timedOut => (false, timeoutMsg)
  | .raised e => (false, "実行エラー: " ++ e)

/-- What one loop iteration observes about its attempt: the pair returned
by `_compress_pdf`, whether `os.path.exists(temp_output)` holds afterwards,
and `_get_file_size_mb(temp_output)` when it does. -/
structure AttemptResult where
  success : Bool
  message : String
  fileWritten : Bool
  size : ℚ
deriving DecidableEq, Repr

/-- Build an attempt record from an engine outcome plus the file-system
observation. -/
def mkAttempt (eo : ExecOutcome) (fileWritten : Bool) (size : ℚ) : AttemptResult :=
  ⟨(compress_pdf eo).1, (compress_pdf eo).2, fileWritten, size⟩

/-- `success and os.path.exists(temp_output)` (line 134). -/
def usableAttempt (ar : AttemptResult) : Bool := ar.success && ar.fileWritten

/-- The bundle of the three loop variables best_file / best_size /
best_quality.  In the source they are updated together at every
supersession; `best = none` corresponds to best_file None with
best_size infinity. -/
structure Candidate where
  file : String
  size : ℚ
  quality : Quality
deriving DecidableEq, Repr

/-- The selector loop state: the current candidate and last_error. -/
structure LoopState where
  best : Option Candidate
  lastError : String
deriving DecidableEq, Repr

/-- State before the loop (lines 121-124). -/
def initState : LoopState := ⟨none, ""⟩

/-- A file-system operation performed inside the temporary directory:
`shutil.copy2` to a fresh path is a create, `os.remove` a remove. -/
inductive FsOp where
  | create (p : String)
  | remove (p : String)
deriving DecidableEq, Repr

/-- The path an operation touches. -/
def opPath : FsOp → String
  | .create p => p
  | .remove p => p

/-- Apply one operation to the file system. -/
def applyOp (fs : List String) : FsOp → List String
  | .create p => p :: fs
  | .remove p => fs.erase p

/-- Apply a list of operations in order. -/
def applyOps (fs : List String) (ops : List FsOp) : List String := ops.foldl applyOp fs

/-- Which branch of the selection policy (lines 141-165) an attempt takes:
keep the candidate, record the error (line 163), adopt the attempt as the
new target-meeting best (lines 142-150), or adopt it as the smallest-size
fallback (lines 153-161). -/
inductive Decision where
  | keepBest
  | recordError
  | takeBest
  | takeFallback
deriving DecidableEq, Repr

/-- The branch taken for one attempt, mirroring the nested conditionals:
`if success and exists` / `if size <= target` /
`if best_file is None or index(q) > index(best_quality)` /
`elif size < best_size`. -/
def decideStep (target : ℚ) (st : LoopState) (q : Quality) (ar : AttemptResult) : Decision :=
  if ar.success && ar.fileWritten then
    if ar.size ≤ target then
      if (match st.best with
          | none => true
          | some c => decide (qualityIndex q > qualityIndex c.quality)) then
        .takeBest
      else .keepBest
    else
      if (match st.best with
          | none => true
          | some c => decide (ar.size < c.size)) then
        .takeFallback
      else .keepBest
  else .recordError

/-- The write of `temp_output` performed by the engine invocation, when
the file came to exist. -/
def engineOps (q : Quality) (ar : AttemptResult) : List FsOp :=
  if ar.fileWritten then [.create (compressedPath q)] else []

/-- `if best_file and os.path.exists(best_file): os.remove(best_file)` -
the deletion of the previously retained artifact, guarded by its
existence in the file system `fs1`. -/
def rmOps (st : LoopState) (fs1 : List String) : List FsOp :=
  match st.best with
  | some c => if c.file ∈ fs1 then [.remove c.file] else []
  | none => []

/-- One iteration of the preset loop (lines 127-167): the new loop state,
together with the file-system operations it performs, in order.  The
engine write of `temp_output` (when the file came to exist) precedes the
selection; a supersession first removes the previously retained artifact
and then creates the new one (`shutil.copy2(temp_output, best_file)`). -/
def stepRunOps (target : ℚ) (st : LoopState) (fs : List String) (q : Quality)
    (ar : AttemptResult) : LoopState × List FsOp :=
  match decideStep target st q ar with
  | .keepBest => (st, engineOps q ar)
  | .recordError => (⟨st.best, ar.message⟩, engineOps q ar)
  | .takeBest =>
      (⟨some ⟨bestPath q, ar.size, q⟩, st.lastError⟩,
        engineOps q ar ++ rmOps st (applyOps fs (engineOps q ar)) ++ [.create (bestPath q)])
  | .takeFallback =>
      (⟨some ⟨fallbackPath q, ar.size, q⟩, st.lastError⟩,
        engineOps q ar ++ rmOps st (applyOps fs (engineOps q ar)) ++ [.create (fallbackPath q)])

/-- One iteration, carrying the file system along. -/
def stepRun (target : ℚ) (sf : LoopState × List String) (qa : Quality × AttemptResult) :
    LoopState × List String :=
  ((stepRunOps target sf.1 sf.2 qa.1 qa.2).1,
    applyOps sf.2 (stepRunOps target sf.1 sf.2 qa.1 qa.2).2)

/-- The whole preset loop, as a fold over the attempt sequence. -/
def runSteps (target : ℚ) (sf : LoopState × List String)
    (qas : List (Quality × AttemptResult)) : LoopState × List String :=
  qas.foldl (stepRun target) sf

/-- The status of a finished run, one per return site of
`compress_to_target_size`. -/
inductive Status where
  | inputNotFound
  | alreadyUnderTarget
  | met
  | partialOnly
  | failed
deriving DecidableEq, Repr

/-- Where the bytes of the declared output file came from, when it was
written: `shutil.copy2(input_path, output_path)` on the early-exit path,
or `shutil.copy2(best_file, output_path)` on the selection path. -/
inductive OutputSrc where
  | copyOfInput
  | fromCandidate (c : Candidate)
deriving DecidableEq, Repr

/-- Observable result of one run: the returned (success, message) pair,
the return site taken, the printed final size and preset, the number of
`_compress_pdf` invocations, and what was written to the output path. -/
structure RunResult where
  success : Bool
  message : String
  status : Status
  finalSize : Option ℚ
  finalQuality : Option Quality
  invocations : Nat
  output : Option OutputSrc
deriving DecidableEq, Repr

/-- Return value of the password/encrypted heuristic (line 199). -/
def pwdHintMsg : String := "パスワード付きPDFの可能性があります。-p オプションでパスワードを指定してください。"

/-- error_detail when last_error is empty (line 195). -/
def allFailedMsg : String := "すべての品質レベルで圧縮に失敗しました"

/-- The fixed head of error_detail when last_error is non-empty. -/
def failHead : String := "圧縮に失敗しました。最後のエラー: "

/-- Message of the already-under-target return (line 116). -/
def copyDoneMsg : String := "コピー完了"

/-- Message of the met-target return (line 182). -/
def metMsg : String := "圧縮成功"

/-- Message of the partial-compression return (line 188). -/
def partialMsg : String := "部分圧縮"

/-- Head of the missing-input message (line 104). -/
def inputMissingHead : String := "入力ファイルが見つかりません: "

/-- Lines 194-201: the all-failed return, including the password/encrypted
heuristic that replaces error_detail by a hint message. -/
def failResult (st : LoopState) : RunResult :=
  let msg :=
    if containsCI st.lastError "password" || containsCI st.lastError "encrypted" then pwdHintMsg
    else if st.lastError = "" then allFailedMsg
    else failHead ++ st.lastError
  ⟨false, msg, .failed, none, none, qualityOrder.length, none⟩

/-- Embedding of `compress_to_target_size` (lines 99-201).  `inputExists`
is `os.path.exists(input_path)`, `originalSize` the input size in MB,
`attempts` the oracle for the four engine invocations.  The with-block
closes right after the loop (line 167), so the temporary directory - and
with it every retained artifact - is removed before the final
`os.path.exists(best_file)` test: the model filters the loop file system
down to the paths outside "TMP/" before that membership test. -/
def compress_to_target_size (inputExists : Bool) (inputPath : String)
    (originalSize target : ℚ) (attempts : Quality → AttemptResult) : RunResult :=
  if inputExists = false then
    ⟨false, inputMissingHead ++ inputPath, .inputNotFound, none, none, 0, none⟩
  else if originalSize ≤ target then
    ⟨true, copyDoneMsg, .alreadyUnderTarget, none, none, 0, some .copyOfInput⟩
  else
    let r := runSteps target (initState, []) (qualityOrder.map fun q => (q, attempts q))
    let fsAfter := r.2.filter fun p => !(strStartsWith tmpDirName p)
    match r.1.best with
    | some c =>
        if c.file ∈ fsAfter then
          if c.size ≤ target then
            ⟨true, metMsg, .met, some c.size, some c.quality, qualityOrder.length,
              some (.fromCandidate c)⟩
          else
            ⟨true, partialMsg, .partialOnly, some c.size, some c.quality, qualityOrder.length,
              some (.fromCandidate c)⟩
        else failResult r.1
    | none => failResult r.1

/-- Exit code of `main` (lines 249-261): 0 when the run reported success,
1 otherwise. -/
def mainExitCode (r : RunResult) : Nat := if r.success then 0 else 1

/-- The file systems seen after each single operation of a list, in
order: every instant inside one loop iteration. -/
def opStates (fs : List String) : List FsOp → List (List String)
  | [] => []
  | op :: ops => applyOp fs op :: opStates (applyOp fs op) ops

/-- Every intermediate file system of a whole run, at the granularity of
single file operations. -/
def runTrace (target : ℚ) (st : LoopState) (fs : List String) :
    List (Quality × AttemptResult) → List (List String)
  | [] => []
  | (q, ar) :: rest =>
      opStates fs (stepRunOps target st fs q ar).2 ++
        runTrace target (stepRunOps target st fs q ar).1
          (applyOps fs (stepRunOps target st fs q ar).2) rest

/-- Whether a path is a retained candidate artifact (a `best_` or
`fallback_` copy, as opposed to an engine output `compressed_` file). -/
def isCandFile (p : String) : Bool :=
  strStartsWith "TMP/best_" p || strStartsWith "TMP/fallback_" p

/-- The retained artifact files a candidate accounts for. -/
def candFiles : Option Candidate → List String
  | none => []
  | some c => [c.file]

/-- The flat list of file operations a run performs inside the
with-block, in order. -/
def runOpsList (target : ℚ) (st : LoopState) (fs : List String) :
    List (Quality × AttemptResult) → List FsOp
  | [] => []
  | (q, ar) :: rest =>
      (stepRunOps target st fs q ar).2 ++
        runOpsList target (stepRunOps target st fs q ar).1
          (applyOps fs (stepRunOps target st fs q ar).2) rest

/-- The ambient file system after a run of the iteration path, starting
from `fs0`.  `fault = some n` models a Python exception thrown after the
first `n` file operations of the with-block body: the remaining body
operations do not run, `TemporaryDirectory.__exit__` still removes the
directory tree (every "TMP/" path), and the code after the with-block is
skipped because the exception propagates.  `fault = none` is a normal
exit: after the cleanup the function runs the final
`if best_file and os.path.exists(best_file): shutil.copy2(best_file, output_path)`,
modelled as conditionally creating "OUT". -/
def fsAfterRun (fs0 : List String) (target : ℚ)
    (qas : List (Quality × AttemptResult)) (fault : Option Nat) : List String :=
  let bodyOps := runOpsList target initState fs0 qas
  let execOps := match fault with | none => bodyOps | some n => bodyOps.take n
  let fs1 := applyOps fs0 execOps
  let fs2 := fs1.filter fun p => !(strStartsWith tmpDirName p)
  match fault with
  | some _ => fs2
  | none =>
      match (runSteps target (initState, fs0) qas).1.best with
      | some c => if c.file ∈ fs2 then "OUT" :: fs2 else fs2
      | none => fs2

/-- last_error at the end of a run in which every attempt took the
else-branch of line 162: each failing attempt overwrites it. -/
def lastErrAfter (init : String) : List (Quality × AttemptResult) → String
  | [] => init
  | (_, ar) :: rest => lastErrAfter ar.message rest

/-- best_file meets the target: the retained candidate exists and its
size is at most the target. -/
def bestMeets (target : ℚ) (st : LoopState) : Bool :=
  match st.best with
  | none => false
  | some c => decide (c.size ≤ target)

/-- The attempt produced a usable artifact whose size meets the target. -/
def attemptMeets (target : ℚ) (ar : AttemptResult) : Bool :=
  ar.success && ar.fileWritten && decide (ar.size ≤ target)

/-- Every retained candidate lives under the temporary directory. -/
def bestTmp (st : LoopState) : Prop :=
  ∀ c, st.best = some c → strStartsWith tmpDirName c.file = true

/-- The mocked engine of the spec scenario: sizes screen 3, ebook 6,
printer 4, prepress 9 (MB), all invocations succeeding. -/
def scenarioAttempts : Quality → AttemptResult
  | .screen => ⟨true, successMsg, true, 3⟩
  | .ebook => ⟨true, successMsg, true, 6⟩
  | .printer => ⟨true, successMsg, true, 4⟩
  | .prepress => ⟨true, successMsg, true, 9⟩

/-- An engine where only the screen preset produces a usable artifact. -/
def c2Attempts : Quality → AttemptResult
  | .screen => ⟨true, successMsg, true, 3⟩
  | _ => ⟨false, "gs error", false, 0⟩

/-- An engine whose every invocation succeeds with a 1 MB artifact. -/
def constAttempts : Quality → AttemptResult := fun _ => ⟨true, successMsg, true, 1⟩

/-- An engine whose every invocation fails with an encryption error. -/
def encAttempts : Quality → AttemptResult := fun _ => ⟨false, "Error: file is encrypted", false, 0⟩

/-- An engine whose every invocation fails with a plain error text. -/
def xrefAttempts : Quality → AttemptResult := fun _ => ⟨false, "bad xref table", false, 0⟩

/-- An engine that reports success while writing no output file. -/
def ghostAttempts : Quality → AttemptResult := fun _ => mkAttempt (.completed 0 "" "") false 0

/-- Loop state with a retained target-meeting screen candidate. -/
def c3State : LoopState := ⟨some ⟨"TMP/best_screen.pdf", 3, .screen⟩, ""⟩

/-- A successful attempt that does not meet the 5 MB target. -/
def c3Attempt : AttemptResult := ⟨true, successMsg, true, 6⟩

/-- A success-reporting attempt that left no output file. -/
def c10Attempt : AttemptResult := ⟨true, "done", false, 0⟩

/-! ### Helper lemmas -/

theorem listContainsSub_append (n pre : List Char) : listContainsSub n (pre ++ n) = true := by
  induction pre with
  | nil =>
      cases n with
      | nil => rfl
      | cons c t =>
          simp only [List.nil_append, listContainsSub, Bool.or_eq_true,
            List.isPrefixOf_iff_prefix]
          exact Or.inl (List.prefix_refl _)
  | cons c t ih =>
      simp only [List.cons_append, listContainsSub, Bool.or_eq_true]
      exact Or.inr ih

theorem strContainsSub_head (head tail : String) :
    strContainsSub (head ++ tail) tail = true := by
  unfold strContainsSub
  rw [String.data_append]
  exact listContainsSub_append _ _

theorem tmp_of_cand {p : String} (h : isCandFile p = true) :
    strStartsWith tmpDirName p = true := by
  unfold isCandFile at h
  unfold strStartsWith tmpDirName at *
  rcases Bool.or_eq_true_iff.mp h with h1 | h1 <;>
  · rw [List.isPrefixOf_iff_prefix] at h1 ⊢
    exact List.IsPrefix.trans (by decide) h1

theorem cand_bestPath (q : Quality) : isCandFile (bestPath q) = true := by
  cases q <;> decide

theorem cand_fallbackPath (q : Quality) : isCandFile (fallbackPath q) = true := by
  cases q <;> decide

theorem notCand_compressedPath (q : Quality) : isCandFile (compressedPath q) = false := by
  cases q <;> decide

theorem tmp_compressedPath (q : Quality) :
    strStartsWith tmpDirName (compressedPath q) = true := by
  cases q <;> decide

theorem tmp_bestPath (q : Quality) : strStartsWith tmpDirName (bestPath q) = true :=
  tmp_of_cand (cand_bestPath q)

theorem tmp_fallbackPath (q : Quality) : strStartsWith tmpDirName (fallbackPath q) = true :=
  tmp_of_cand (cand_fallbackPath q)

theorem decideStep_recordError {target : ℚ} {st : LoopState} {q : Quality}
    {ar : AttemptResult} (h : (ar.success && ar.fileWritten) = false) :
    decideStep target st q ar = .recordError := by
  unfold decideStep
  rw [h]
  rfl

theorem decideStep_takeBest_facts {target : ℚ} {st : LoopState} {q : Quality}
    {ar : AttemptResult} (h : decideStep target st q ar = .takeBest) :
    ar.success = true ∧ ar.fileWritten = true ∧ ar.size ≤ target := by
  unfold decideStep at h
  by_cases h1 : (ar.success && ar.fileWritten) = true
  · rw [if_pos h1] at h
    obtain ⟨hs, hw⟩ := Bool.and_eq_true_iff.mp h1
    by_cases h2 : ar.size ≤ target
    · exact ⟨hs, hw, h2⟩
    · rw [if_neg h2] at h
      split at h <;> simp_all
  · rw [if_neg h1] at h
    simp at h

theorem decideStep_takeFallback_facts {target : ℚ} {st : LoopState} {q : Quality}
    {ar : AttemptResult} (h : decideStep target st q ar = .takeFallback) :
    ar.success = true ∧ ar.fileWritten = true ∧ ¬ ar.size ≤ target ∧
      ∀ c, st.best = some c → ar.size < c.size := by
  unfold decideStep at h
  by_cases h1 : (ar.success && ar.fileWritten) = true
  · rw [if_pos h1] at h
    obtain ⟨hs, hw⟩ := Bool.and_eq_true_iff.mp h1
    by_cases h2 : ar.size ≤ target
    · rw [if_pos h2] at h
      split at h <;> simp_all
    · rw [if_neg h2] at h
      refine ⟨hs, hw, h2, ?_⟩
      intro c hc
      split at h
      · next hcond =>
          rw [hc] at hcond
          exact of_decide_eq_true hcond
      · simp at h
  · rw [if_neg h1] at h
    simp at h

theorem stepRunOps_keep {target : ℚ} {st : LoopState} {q : Quality} {ar : AttemptResult}
    (fs : List String) (hd : decideStep target st q ar = .keepBest) :
    stepRunOps target st fs q ar = (st, engineOps q ar) := by
  unfold stepRunOps
  rw [hd]

theorem stepRunOps_record {target : ℚ} {st : LoopState} {q : Quality} {ar : AttemptResult}
    (fs : List String) (hd : decideStep target st q ar = .recordError) :
    stepRunOps target st fs q ar = (⟨st.best, ar.message⟩, engineOps q ar) := by
  unfold stepRunOps
  rw [hd]

theorem stepRunOps_takeBest {target : ℚ} {st : LoopState} {q : Quality} {ar : AttemptResult}
    (fs : List String) (hd : decideStep target st q ar = .takeBest) :
    stepRunOps target st fs q ar =
      (⟨some ⟨bestPath q, ar.size, q⟩, st.lastError⟩,
        engineOps q ar ++ rmOps st (applyOps fs (engineOps q ar)) ++ [.create (bestPath q)]) := by
  unfold stepRunOps
  rw [hd]

theorem stepRunOps_takeFallback {target : ℚ} {st : LoopState} {q : Quality} {ar : AttemptResult}
    (fs : List String) (hd : decideStep target st q ar = .takeFallback) :
    stepRunOps target st fs q ar =
      (⟨some ⟨fallbackPath q, ar.size, q⟩, st.lastError⟩,
        engineOps q ar ++ rmOps st (applyOps fs (engineOps q ar)) ++ [.create (fallbackPath q)]) := by
  unfold stepRunOps
  rw [hd]

theorem filter_applyOps_engine (fs : List String) (q : Quality) (ar : AttemptResult) :
    (applyOps fs (engineOps q ar)).filter isCandFile = fs.filter isCandFile := by
  unfold engineOps
  cases hw : ar.fileWritten <;>
    simp [applyOps, applyOp, List.filter_cons, notCand_compressedPath]

theorem candFiles_length (b : Option Candidate) : (candFiles b).length ≤ 1 := by
  cases b <;> simp [candFiles]

theorem applyOps_append (fs : List String) (xs ys : List FsOp) :
    applyOps fs (xs ++ ys) = applyOps (applyOps fs xs) ys := by
  unfold applyOps
  rw [List.foldl_append]

theorem applyOps_one (fs : List String) (op : FsOp) : applyOps fs [op] = applyOp fs op := rfl

theorem opStates_one (fs : List String) (op : FsOp) : opStates fs [op] = [applyOp fs op] := rfl

theorem opStates_append (fs : List String) (xs ys : List FsOp) :
    opStates fs (xs ++ ys) = opStates fs xs ++ opStates (applyOps fs xs) ys := by
  induction xs generalizing fs with
  | nil => simp [opStates, applyOps]
  | cons op ops ih => simp [opStates, ih, applyOps, List.foldl_cons]

theorem filter_opStates_engine (fs : List String) (q : Quality) (ar : AttemptResult) :
    ∀ s ∈ opStates fs (engineOps q ar), s.filter isCandFile = fs.filter isCandFile := by
  unfold engineOps
  cases hw : ar.fileWritten
  · simp [opStates]
  · intro s hs
    simp only [if_pos rfl, opStates, applyOp, List.mem_singleton] at hs
    subst hs
    simp [List.filter_cons, notCand_compressedPath]

theorem filter_cons_cand {p : String} (l : List String) (hp : isCandFile p = true) :
    (p :: l).filter isCandFile = p :: l.filter isCandFile := by
  simp [List.filter_cons, hp]

theorem supersede_inv_bound (st : LoopState) (fs : List String) (q : Quality)
    (ar : AttemptResult) (p : String) (hp : isCandFile p = true)
    (hinv : fs.filter isCandFile = candFiles st.best) :
    (applyOps fs (engineOps q ar ++ rmOps st (applyOps fs (engineOps q ar)) ++ [.create p])).filter
        isCandFile = [p] ∧
    ∀ s ∈ opStates fs (engineOps q ar ++ rmOps st (applyOps fs (engineOps q ar)) ++ [.create p]),
      (s.filter isCandFile).length ≤ 1 := by
  have hE : (applyOps fs (engineOps q ar)).filter isCandFile = candFiles st.best := by
    rw [filter_applyOps_engine]; exact hinv
  cases hbest : st.best with
  | none =>
      have hE0 : (applyOps fs (engineOps q ar)).filter isCandFile = [] := by
        rw [hE, hbest]; rfl
      have hrm : rmOps st (applyOps fs (engineOps q ar)) = [] := by
        unfold rmOps; rw [hbest]
      rw [hrm, List.append_nil]
      constructor
      · rw [applyOps_append, applyOps_one]
        rw [show applyOp (applyOps fs (engineOps q ar)) (FsOp.create p)
            = p :: applyOps fs (engineOps q ar) from rfl]
        rw [filter_cons_cand _ hp, hE0]
      · intro s hs
        rw [opStates_append] at hs
        simp only [List.mem_append] at hs
        rcases hs with hs | hs
        · rw [filter_opStates_engine fs q ar s hs, hinv, hbest]
          simp [candFiles]
        · rw [opStates_one] at hs
          simp only [List.mem_singleton] at hs
          subst hs
          rw [show applyOp (applyOps fs (engineOps q ar)) (FsOp.create p)
              = p :: applyOps fs (engineOps q ar) from rfl]
          rw [filter_cons_cand _ hp, hE0]
          simp
  | some c =>
      have hEc : (applyOps fs (engineOps q ar)).filter isCandFile = [c.file] := by
        rw [hE, hbest]; rfl
      have hmem : c.file ∈ applyOps fs (engineOps q ar) := by
        have : c.file ∈ (applyOps fs (engineOps q ar)).filter isCandFile := by
          rw [hEc]; simp
        exact (List.mem_filter.mp this).1
      have hrm : rmOps st (applyOps fs (engineOps q ar)) = [.remove c.file] := by
        unfold rmOps; rw [hbest]; simp [hmem]
      have hErase : ((applyOps fs (engineOps q ar)).erase c.file).filter isCandFile = [] := by
        rw [← List.erase_filter, hEc, List.erase_cons_head]
      rw [hrm]
      constructor
      · rw [applyOps_append, applyOps_append, applyOps_one, applyOps_one]
        rw [show applyOp (applyOps fs (engineOps q ar)) (FsOp.remove c.file)
            = (applyOps fs (engineOps q ar)).erase c.file from rfl]
        rw [show applyOp ((applyOps fs (engineOps q ar)).erase c.file) (FsOp.create p)
            = p :: (applyOps fs (engineOps q ar)).erase c.file from rfl]
        rw [filter_cons_cand _ hp, hErase]
      · intro s hs
        rw [opStates_append, opStates_append] at hs
        simp only [List.mem_append] at hs
        rcases hs with (hs | hs) | hs
        · rw [filter_opStates_engine fs q ar s hs, hinv, hbest]
          simp [candFiles]
        · rw [opStates_one] at hs
          simp only [List.mem_singleton] at hs
          subst hs
          rw [show applyOp (applyOps fs (engineOps q ar)) (FsOp.remove c.file)
              = (applyOps fs (engineOps q ar)).erase c.file from rfl]
          rw [hErase]
          simp
        · rw [applyOps_append, applyOps_one, opStates_one] at hs
          simp only [List.mem_singleton] at hs
          subst hs
          rw [show applyOp (applyOp (applyOps fs (engineOps q ar)) (FsOp.remove c.file))
                (FsOp.create p)
              = p :: (applyOps fs (engineOps q ar)).erase c.file from rfl]
          rw [filter_cons_cand _ hp, hErase]
          simp

theorem step_inv_bound (target : ℚ) (st : LoopState) (fs : List String) (q : Quality)
    (ar : AttemptResult) (hinv : fs.filter isCandFile = candFiles st.best) :
    (applyOps fs (stepRunOps target st fs q ar).2).filter isCandFile
        = candFiles (stepRunOps target st fs q ar).1.best ∧
    ∀ s ∈ opStates fs (stepRunOps target st fs q ar).2, (s.filter isCandFile).length ≤ 1 := by
  cases hd : decideStep target st q ar
  case keepBest =>
      rw [stepRunOps_keep fs hd]
      refine ⟨by rw [filter_applyOps_engine]; exact hinv, ?_⟩
      intro s hs
      rw [filter_opStates_engine fs q ar s hs, hinv]
      exact candFiles_length _
  case recordError =>
      rw [stepRunOps_record fs hd]
      refine ⟨by rw [filter_applyOps_engine]; exact hinv, ?_⟩
      intro s hs
      rw [filter_opStates_engine fs q ar s hs, hinv]
      exact candFiles_length _
  case takeBest =>
      rw [stepRunOps_takeBest fs hd]
      have h := supersede_inv_bound st fs q ar (bestPath q) (cand_bestPath q) hinv
      exact ⟨by rw [h.1]; rfl, h.2⟩
  case takeFallback =>
      rw [stepRunOps_takeFallback fs hd]
      have h := supersede_inv_bound st fs q ar (fallbackPath q) (cand_fallbackPath q) hinv
      exact ⟨by rw [h.1]; rfl, h.2⟩

theorem trace_bound (target : ℚ) :
    ∀ (qas : List (Quality × AttemptResult)) (st : LoopState) (fs : List String),
      fs.filter isCandFile = candFiles st.best →
      ∀ s ∈ runTrace target st fs qas, (s.filter isCandFile).length ≤ 1 := by
  intro qas
  induction qas with
  | nil => intro st fs _ s hs; simp [runTrace] at hs
  | cons qa rest ih =>
      intro st fs hinv s hs
      obtain ⟨q, ar⟩ := qa
      rw [runTrace] at hs
      rcases List.mem_append.mp hs with hs | hs
      · exact (step_inv_bound target st fs q ar hinv).2 s hs
      · exact ih _ _ (step_inv_bound target st fs q ar hinv).1 s hs

theorem bestTmp_init : bestTmp initState := by
  intro c hc
  simp [initState] at hc

theorem bestTmp_step (target : ℚ) (st : LoopState) (fs : List String) (q : Quality)
    (ar : AttemptResult) (h : bestTmp st) : bestTmp (stepRunOps target st fs q ar).1 := by
  cases hd : decideStep target st q ar
  case keepBest => rw [stepRunOps_keep fs hd]; exact h
  case recordError =>
      rw [stepRunOps_record fs hd]
      intro c hc
      exact h c hc
  case takeBest =>
      rw [stepRunOps_takeBest fs hd]
      intro c hc
      simp only [Option.some_inj] at hc
      rw [← hc]
      exact tmp_bestPath q
  case takeFallback =>
      rw [stepRunOps_takeFallback fs hd]
      intro c hc
      simp only [Option.some_inj] at hc
      rw [← hc]
      exact tmp_fallbackPath q

theorem bestTmp_runSteps (target : ℚ) :
    ∀ (qas : List (Quality × AttemptResult)) (st : LoopState) (fs : List String),
      bestTmp st → bestTmp (runSteps target (st, fs) qas).1 := by
  intro qas
  induction qas with
  | nil => intro st fs h; exact h
  | cons qa rest ih =>
      intro st fs h
      obtain ⟨q, ar⟩ := qa
      have : runSteps target (st, fs) ((q, ar) :: rest)
          = runSteps target (stepRun target (st, fs) (q, ar)) rest := rfl
      rw [this]
      exact ih _ _ (bestTmp_step target st fs q ar h)

theorem step_ops_tmp (target : ℚ) (st : LoopState) (fs : List String) (q : Quality)
    (ar : AttemptResult) (h : bestTmp st) :
    ∀ op ∈ (stepRunOps target st fs q ar).2, strStartsWith tmpDirName (opPath op) = true := by
  have hengine : ∀ op ∈ engineOps q ar, strStartsWith tmpDirName (opPath op) = true := by
    unfold engineOps
    cases ar.fileWritten
    · simp
    · intro op hop
      simp at hop
      subst hop
      exact tmp_compressedPath q
  have hrm2 : rmOps st (applyOps fs (engineOps q ar)) = [] ∨
      ∃ c, st.best = some c ∧
        rmOps st (applyOps fs (engineOps q ar)) = [FsOp.remove c.file] := by
    unfold rmOps
    cases hbest : st.best with
    | none => exact Or.inl rfl
    | some c =>
        by_cases hm : c.file ∈ applyOps fs (engineOps q ar)
        · exact Or.inr ⟨c, rfl, by simp [hm]⟩
        · exact Or.inl (by simp [hm])
  have hrm : ∀ op ∈ rmOps st (applyOps fs (engineOps q ar)),
      strStartsWith tmpDirName (opPath op) = true := by
    intro op hop
    rcases hrm2 with he | ⟨c, hbest, he⟩
    · rw [he] at hop
      simp at hop
    · rw [he] at hop
      simp only [List.mem_singleton] at hop
      subst hop
      exact h c hbest
  cases hd : decideStep target st q ar
  case keepBest => rw [stepRunOps_keep fs hd]; exact hengine
  case recordError => rw [stepRunOps_record fs hd]; exact hengine
  case takeBest =>
      rw [stepRunOps_takeBest fs hd]
      intro op hop
      rcases List.mem_append.mp hop with hop | hop
      · rcases List.mem_append.mp hop with hop | hop
        · exact hengine op hop
        · exact hrm op hop
      · simp only [List.mem_singleton] at hop
        subst hop
        exact tmp_bestPath q
  case takeFallback =>
      rw [stepRunOps_takeFallback fs hd]
      intro op hop
      rcases List.mem_append.mp hop with hop | hop
      · rcases List.mem_append.mp hop with hop | hop
        · exact hengine op hop
        · exact hrm op hop
      · simp only [List.mem_singleton] at hop
        subst hop
        exact tmp_fallbackPath q

theorem runOps_tmp (target : ℚ) :
    ∀ (qas : List (Quality × AttemptResult)) (st : LoopState) (fs : List String),
      bestTmp st →
      ∀ op ∈ runOpsList target st fs qas, strStartsWith tmpDirName (opPath op) = true := by
  intro qas
  induction qas with
  | nil => intro st fs _ op hop; simp [runOpsList] at hop
  | cons qa rest ih =>
      intro st fs h op hop
      obtain ⟨q, ar⟩ := qa
      rw [runOpsList] at hop
      rcases List.mem_append.mp hop with hop | hop
      · exact step_ops_tmp target st fs q ar h op hop
      · exact ih _ _ (bestTmp_step target st fs q ar h) op hop

theorem applyOps_mem_frame {p : String} :
    ∀ (ops : List FsOp) (fs : List String), (∀ op ∈ ops, opPath op ≠ p) →
      (p ∈ applyOps fs ops ↔ p ∈ fs) := by
  intro ops
  induction ops with
  | nil => intro fs _; rfl
  | cons op rest ih =>
      intro fs h
      have hop : opPath op ≠ p := h op (List.mem_cons_self op rest)
      have hrest : ∀ o ∈ rest, opPath o ≠ p := fun o ho => h o (List.mem_cons_of_mem op ho)
      have : applyOps fs (op :: rest) = applyOps (applyOp fs op) rest := rfl
      rw [this, ih _ hrest]
      cases op with
      | create a =>
          simp only [applyOp, List.mem_cons]
          constructor
          · rintro (rfl | hm)
            · exact absurd rfl hop
            · exact hm
          · exact Or.inr
      | remove a =>
          simp only [applyOp]
          exact List.mem_erase_of_ne (fun he => hop he.symm)

theorem stepRun_fst (target : ℚ) (sf : LoopState × List String) (qa : Quality × AttemptResult) :
    (stepRun target sf qa).1 = (stepRunOps target sf.1 sf.2 qa.1 qa.2).1 := rfl

theorem stepRunOps_unusable {target : ℚ} {st : LoopState} {q : Quality} {ar : AttemptResult}
    (fs : List String) (h : usableAttempt ar = false) :
    (stepRunOps target st fs q ar).1 = ⟨st.best, ar.message⟩ := by
  rw [stepRunOps_record fs (decideStep_recordError h)]

theorem runSteps_unusable (target : ℚ) :
    ∀ (qas : List (Quality × AttemptResult)) (st : LoopState) (fs : List String),
      (∀ qa ∈ qas, usableAttempt qa.2 = false) →
      (runSteps target (st, fs) qas).1 = ⟨st.best, lastErrAfter st.lastError qas⟩ := by
  intro qas
  induction qas with
  | nil => intro st fs _; rfl
  | cons qa rest ih =>
      intro st fs h
      obtain ⟨q, ar⟩ := qa
      have hstep : runSteps target (st, fs) ((q, ar) :: rest)
          = runSteps target (stepRun target (st, fs) (q, ar)) rest := rfl
      rw [hstep]
      have h1 : usableAttempt ar = false := h (q, ar) (List.mem_cons_self _ _)
      have h2 : ∀ qa ∈ rest, usableAttempt qa.2 = false :=
        fun qa hqa => h qa (List.mem_cons_of_mem _ hqa)
      have hfst : (stepRun target (st, fs) (q, ar)).1 = ⟨st.best, ar.message⟩ := by
        rw [stepRun_fst]
        exact stepRunOps_unusable fs h1
      have := ih (stepRun target (st, fs) (q, ar)).1 (stepRun target (st, fs) (q, ar)).2 h2
      rw [Prod.mk.eta] at this
      rw [this, hfst]
      rfl

theorem ctts_fail (inputPath : String) (originalSize target : ℚ)
    (attempts : Quality → AttemptResult) (h : ¬ originalSize ≤ target) :
    compress_to_target_size true inputPath originalSize target attempts =
      failResult (runSteps target (initState, []) (qualityOrder.map fun q => (q, attempts q))).1 := by
  unfold compress_to_target_size
  rw [if_neg (by simp), if_neg h]
  cases hb : (runSteps target (initState, []) (qualityOrder.map fun q => (q, attempts q))).1.best with
  | none => simp only [hb]
  | some c =>
      have htmp : strStartsWith tmpDirName c.file = true :=
        bestTmp_runSteps target _ initState [] bestTmp_init c hb
      have hnot : c.file ∉
          (runSteps target (initState, []) (qualityOrder.map fun q => (q, attempts q))).2.filter
            (fun p => !(strStartsWith tmpDirName p)) := by
        intro hm
        have := (List.mem_filter.mp hm).2
        rw [htmp] at this
        simp at this
      simp only [hb]
      rw [if_neg hnot]

theorem failResult_message (st : LoopState) :
    (failResult st).message =
      if containsCI st.lastError "password" || containsCI st.lastError "encrypted"
      then pwdHintMsg
      else if st.lastError = "" then allFailedMsg else failHead ++ st.lastError := rfl

theorem bestMeets_step (target : ℚ) (st : LoopState) (fs : List String) (q : Quality)
    (ar : AttemptResult) (h : bestMeets target st = true) :
    (attemptMeets target ar = false → (stepRunOps target st fs q ar).1.best = st.best) ∧
    bestMeets target (stepRunOps target st fs q ar).1 = true := by
  obtain ⟨c, hbest, hcs⟩ : ∃ c, st.best = some c ∧ c.size ≤ target := by
    unfold bestMeets at h
    cases hbest : st.best with
    | none => rw [hbest] at h; simp at h
    | some c => rw [hbest] at h; exact ⟨c, rfl, of_decide_eq_true h⟩
  cases hd : decideStep target st q ar
  case keepBest => rw [stepRunOps_keep fs hd]; exact ⟨fun _ => rfl, h⟩
  case recordError =>
      rw [stepRunOps_record fs hd]
      exact ⟨fun _ => rfl, h⟩
  case takeBest =>
      obtain ⟨hs, hw, hsize⟩ := decideStep_takeBest_facts hd
      rw [stepRunOps_takeBest fs hd]
      constructor
      · intro hm
        unfold attemptMeets at hm
        rw [hs, hw, decide_eq_true hsize] at hm
        simp at hm
      · unfold bestMeets
        exact decide_eq_true hsize
  case takeFallback =>
      obtain ⟨hs2, hw2, hns, hlt⟩ := decideStep_takeFallback_facts hd
      exact absurd (le_of_lt (lt_of_lt_of_le (hlt c hbest) hcs)) hns

theorem bestMeets_runSteps (target : ℚ) :
    ∀ (qas : List (Quality × AttemptResult)) (st : LoopState) (fs : List String),
      bestMeets target st = true → bestMeets target (runSteps target (st, fs) qas).1 = true := by
  intro qas
  induction qas with
  | nil => intro st fs h; exact h
  | cons qa rest ih =>
      intro st fs h
      obtain ⟨q, ar⟩ := qa
      have hstep : runSteps target (st, fs) ((q, ar) :: rest)
          = runSteps target (stepRun target (st, fs) (q, ar)) rest := rfl
      rw [hstep]
      have h2 : bestMeets target (stepRun target (st, fs) (q, ar)).1 = true := by
        rw [stepRun_fst]
        exact (bestMeets_step target st fs q ar h).2
      have := ih (stepRun target (st, fs) (q, ar)).1 (stepRun target (st, fs) (q, ar)).2 h2
      rw [Prod.mk.eta] at this
      exact this

/-- Claim C1 (code bug).  On the spec scenario (input 12 MB, target 5 MB,
sizes screen 3 / ebook 6 / printer 4 / prepress 9) the loop retains the
printer preset, the highest-quality preset meeting the target, exactly as
the claim demands - but the function then returns a Failed result with no
output, because the retained artifact was deleted together with the
temporary directory before the final existence check (the
`if best_file and os.path.exists(best_file)` at line 171 sits outside the
with-block that ends at line 167). -/
theorem c1_selection_discarded_by_tempdir_cleanup :
    (runSteps 5 (initState, []) (qualityOrder.map fun q => (q, scenarioAttempts q))).1.best
        = some ⟨bestPath .printer, 4, .printer⟩ ∧
    (compress_to_target_size true "input.pdf" 12 5 scenarioAttempts).status = .failed ∧
    (compress_to_target_size true "input.pdf" 12 5 scenarioAttempts).success = false ∧
    (compress_to_target_size true "input.pdf" 12 5 scenarioAttempts).output = none := by
  decide

/-- Claim C2 (code bug).  A run in which the screen attempt succeeds with
a usable 3 MB artifact (meeting the 5 MB target) still ends with status
Failed, contradicting the invariant that Failed implies zero successful
attempts; the cause is the same scoping slip as for C1. -/
theorem c2_failed_despite_successful_attempt :
    usableAttempt (c2Attempts .screen) = true ∧
    (c2Attempts .screen).size ≤ 5 ∧
    (compress_to_target_size true "input.pdf" 12 5 c2Attempts).status = .failed := by
  decide

/-- Claim C3 (confirmed).  Once the retained best candidate meets the
target, an attempt that does not meet the target never supersedes it (the
state keeps the same candidate), and the property of holding a
target-meeting candidate is preserved by every later attempt, hence by
every remaining sequence of attempts. -/
theorem c3_fallback_never_supersedes_meeting_candidate (target : ℚ) (st : LoopState)
    (fs : List String) (q : Quality) (ar : AttemptResult)
    (h : bestMeets target st = true) :
    (attemptMeets target ar = false → (stepRunOps target st fs q ar).1.best = st.best) ∧
    bestMeets target (stepRunOps target st fs q ar).1 = true ∧
    ∀ (qas : List (Quality × AttemptResult)) (fs2 : List String),
      bestMeets target (runSteps target (st, fs2) qas).1 = true := by
  refine ⟨(bestMeets_step target st fs q ar h).1, (bestMeets_step target st fs q ar h).2, ?_⟩
  intro qas fs2
  exact bestMeets_runSteps target qas st fs2 h

theorem c3_witness :
    bestMeets 5 c3State = true ∧
    attemptMeets 5 c3Attempt = false ∧
    (stepRunOps 5 c3State ["TMP/best_screen.pdf"] .ebook c3Attempt).1.best = c3State.best :=
  ⟨by decide, by decide,
    (c3_fallback_never_supersedes_meeting_candidate 5 c3State ["TMP/best_screen.pdf"] .ebook
        c3Attempt (by decide)).1 (by decide)⟩

/-- Claim C4, counterexample.  Target 0 MB is non-positive, the 1 MB input
exists, yet the run does not abort before work: all four compression
attempts are made (`invocations = 4`), refuting `no compression attempt is
made`.  Neither `compress_to_target_size` nor `main` validates the target. -/
theorem c4_counterexample_attempts_made_on_nonpositive_target :
    (compress_to_target_size true "in.pdf" 1 0 constAttempts).invocations = 4 := by
  decide

/-- Claim C4 as amended.  For a non-positive target with an existing input
larger than the target, the run is not aborted: all four engine
invocations happen.  No output file is produced and the process exits
non-zero, but only after the work, not before it. -/
theorem c4_amended_no_target_validation (inputPath : String) (originalSize target : ℚ)
    (attempts : Quality → AttemptResult) (_h0 : target ≤ 0) (h1 : target < originalSize) :
    (compress_to_target_size true inputPath originalSize target attempts).invocations = 4 ∧
    (compress_to_target_size true inputPath originalSize target attempts).output = none ∧
    (compress_to_target_size true inputPath originalSize target attempts).success = false ∧
    mainExitCode (compress_to_target_size true inputPath originalSize target attempts) = 1 := by
  rw [ctts_fail inputPath originalSize target attempts (not_le.mpr h1)]
  exact ⟨rfl, rfl, rfl, rfl⟩

theorem c4_amended_witness :
    ((0 : ℚ) ≤ 0 ∧ (0 : ℚ) < 1) ∧
    ((compress_to_target_size true "in.pdf" 1 0 constAttempts).invocations = 4 ∧
      (compress_to_target_size true "in.pdf" 1 0 constAttempts).output = none ∧
      (compress_to_target_size true "in.pdf" 1 0 constAttempts).success = false ∧
      mainExitCode (compress_to_target_size true "in.pdf" 1 0 constAttempts) = 1) :=
  ⟨⟨by decide, by decide⟩,
    c4_amended_no_target_validation "in.pdf" 1 0 constAttempts (by decide) (by decide)⟩

/-- Claim C5, counterexample.  When every preset fails and the last error
text contains "encrypted", the returned diagnostic is the password hint
alone: it does not include the last attempt error text, refuting
`a diagnostic that includes the last attempt error text ... additionally
flags an access-control hint` - the hint replaces the diagnostic. -/
theorem c5_counterexample_hint_replaces_diagnostic :
    (compress_to_target_size true "input.pdf" 12 5 encAttempts).message = pwdHintMsg ∧
    strContainsSub (compress_to_target_size true "input.pdf" 12 5 encAttempts).message
      "Error: file is encrypted" = false := by
  decide

/-- Claim C5 as amended.  For every run in which no preset produces a
usable artifact, the result is Failed; the diagnostic includes the last
attempt error text when that text has no password/encrypted indicator
(and is the generic message when the text is empty), but when the text
does contain "password" or "encrypted" case-insensitively the diagnostic
is replaced by the access-control hint. -/
theorem c5_amended_failed_diagnostic (inputPath : String) (originalSize target : ℚ)
    (attempts : Quality → AttemptResult)
    (h1 : ¬ originalSize ≤ target)
    (h2 : ∀ q, usableAttempt (attempts q) = false) :
    (compress_to_target_size true inputPath originalSize target attempts).status = .failed ∧
    (compress_to_target_size true inputPath originalSize target attempts).success = false ∧
    ((containsCI (attempts .prepress).message "password"
        || containsCI (attempts .prepress).message "encrypted") = true →
      (compress_to_target_size true inputPath originalSize target attempts).message
        = pwdHintMsg) ∧
    ((containsCI (attempts .prepress).message "password"
        || containsCI (attempts .prepress).message "encrypted") = false →
      (attempts .prepress).message ≠ "" →
      strContainsSub (compress_to_target_size true inputPath originalSize target attempts).message
        (attempts .prepress).message = true) ∧
    ((containsCI (attempts .prepress).message "password"
        || containsCI (attempts .prepress).message "encrypted") = false →
      (attempts .prepress).message = "" →
      (compress_to_target_size true inputPath originalSize target attempts).message
        = allFailedMsg) := by
  have hall : ∀ qa ∈ (qualityOrder.map fun q => (q, attempts q)), usableAttempt qa.2 = false := by
    intro qa hqa
    obtain ⟨q, _, rfl⟩ := List.mem_map.mp hqa
    exact h2 q
  have hst : (runSteps target (initState, []) (qualityOrder.map fun q => (q, attempts q))).1
      = ⟨none, (attempts .prepress).message⟩ := by
    rw [runSteps_unusable target _ initState [] hall]
    rfl
  rw [ctts_fail inputPath originalSize target attempts h1, hst]
  refine ⟨rfl, rfl, ?_, ?_, ?_⟩
  · intro hc
    rw [failResult_message]
    exact if_pos hc
  · intro hc hne
    rw [failResult_message, if_neg (by simp [hc]), if_neg hne]
    exact strContainsSub_head failHead (attempts .prepress).message
  · intro hc he
    rw [failResult_message, if_neg (by simp [hc])]
    exact if_pos he

theorem c5_amended_witness :
    (¬ (12 : ℚ) ≤ 5) ∧
    (compress_to_target_size true "in.pdf" 12 5 xrefAttempts).status = .failed :=
  ⟨by decide,
    (c5_amended_failed_diagnostic "in.pdf" 12 5 xrefAttempts (by decide) (fun _ => rfl)).1⟩

/-- Claim C6 (confirmed).  When the input size is at most the target, the
run returns the already-under-target status, the output file is the
verbatim copy of the input (`shutil.copy2(input_path, output_path)`), and
no engine invocation occurs. -/
theorem c6_already_under_target (inputPath : String) (originalSize target : ℚ)
    (attempts : Quality → AttemptResult) (h : originalSize ≤ target) :
    (compress_to_target_size true inputPath originalSize target attempts).status
        = .alreadyUnderTarget ∧
    (compress_to_target_size true inputPath originalSize target attempts).output
        = some .copyOfInput ∧
    (compress_to_target_size true inputPath originalSize target attempts).invocations = 0 ∧
    (compress_to_target_size true inputPath originalSize target attempts).success = true ∧
    (compress_to_target_size true inputPath originalSize target attempts).message
        = copyDoneMsg := by
  unfold compress_to_target_size
  rw [if_neg (by simp), if_pos h]
  exact ⟨rfl, rfl, rfl, rfl, rfl⟩

theorem c6_witness :
    (3 : ℚ) ≤ 5 ∧
    ((compress_to_target_size true "in.pdf" 3 5 constAttempts).status
        = .alreadyUnderTarget ∧
      (compress_to_target_size true "in.pdf" 3 5 constAttempts).output
        = some .copyOfInput ∧
      (compress_to_target_size true "in.pdf" 3 5 constAttempts).invocations = 0 ∧
      (compress_to_target_size true "in.pdf" 3 5 constAttempts).success = true ∧
      (compress_to_target_size true "in.pdf" 3 5 constAttempts).message = copyDoneMsg) :=
  ⟨by decide, c6_already_under_target "in.pdf" 3 5 constAttempts (by decide)⟩

/-- Claim C7 (confirmed).  `_compress_pdf` is a total function of the
engine outcome (it never raises): a non-zero exit yields a failure whose
diagnostic is the error stream, falling back to the standard-output
stream, then to the generic message; the timeout handler yields a failure
carrying the timeout message; any other raised execution error also
yields a failure; and the wall-clock limit passed to `subprocess.run` is
60 seconds. -/
theorem c7_engine_failure_normalization :
    (∀ (rc : Int) (out err : String), rc ≠ 0 →
      (compress_pdf (.completed rc out err)).1 = false ∧
      (err ≠ "" → (compress_pdf (.completed rc out err)).2 = err) ∧
      (err = "" → out ≠ "" → (compress_pdf (.completed rc out err)).2 = out) ∧
      (err = "" → out = "" → (compress_pdf (.completed rc out err)).2 = unknownErrorMsg)) ∧
    compress_pdf .timedOut = (false, timeoutMsg) ∧
    (∀ e, (compress_pdf (.raised e)).1 = false) ∧
    timeoutLimitSeconds = 60 := by
  refine ⟨?_, rfl, fun e => rfl, rfl⟩
  intro rc out err hrc
  refine ⟨by simp [compress_pdf, hrc], ?_, ?_, ?_⟩
  · intro he
    simp [compress_pdf, pyOr, hrc, he]
  · intro he ho
    simp [compress_pdf, pyOr, hrc, he, ho]
  · intro he ho
    simp [compress_pdf, pyOr, hrc, he, ho]

theorem c7_witness :
    (1 : Int) ≠ 0 ∧ "boom" ≠ "" ∧ (compress_pdf (.completed 1 "out" "boom")).2 = "boom" :=
  ⟨by decide, by decide,
    (c7_engine_failure_normalization.1 1 "out" "boom" (by decide)).2.1 (by decide)⟩

/-- Claim C10 (confirmed).  An attempt whose engine invocation reports
success while the output file does not exist takes the else-branch of
line 162: it contributes no candidate and performs no file operation, and
last_error is overwritten with the attempt message - which, for a
successful invocation, `_compress_pdf` fixes to the success message.
Consequently a run in which every attempt behaves this way returns Failed
with the success message embedded in its diagnostic. -/
theorem c10_success_without_file_overwrites_last_error :
    (∀ (target : ℚ) (st : LoopState) (fs : List String) (q : Quality) (ar : AttemptResult),
        ar.success = true → ar.fileWritten = false →
        (stepRunOps target st fs q ar).1 = ⟨st.best, ar.message⟩ ∧
        (stepRunOps target st fs q ar).2 = []) ∧
    (∀ out err, (compress_pdf (.completed 0 out err)).2 = successMsg) ∧
    ((compress_to_target_size true "input.pdf" 12 5 ghostAttempts).status = .failed ∧
      (compress_to_target_size true "input.pdf" 12 5 ghostAttempts).message
        = failHead ++ successMsg) := by
  refine ⟨?_, fun out err => rfl, by decide⟩
  intro target st fs q ar hs hw
  have hu : (ar.success && ar.fileWritten) = false := by rw [hs, hw]; rfl
  refine ⟨stepRunOps_unusable fs (by unfold usableAttempt; exact hu), ?_⟩
  rw [stepRunOps_record fs (decideStep_recordError hu)]
  simp [engineOps, hw]

theorem c10_witness :
    c10Attempt.success = true ∧ c10Attempt.fileWritten = false ∧
    ((stepRunOps 5 initState [] .screen c10Attempt).1 = ⟨initState.best, "done"⟩ ∧
      (stepRunOps 5 initState [] .screen c10Attempt).2 = []) :=
  ⟨rfl, rfl,
    c10_success_without_file_overwrites_last_error.1 5 initState [] .screen c10Attempt rfl rfl⟩

/-- Claim C8 (confirmed).  Over an arbitrary attempt sequence, every
intermediate file system of the iteration - one snapshot after every
single file operation - contains at most one retained candidate artifact;
and whenever an attempt supersedes an existing candidate, the operations
of that step are exactly: the engine write, then the removal of the
previously retained artifact, then the creation of the new one - deletion
strictly before retention. -/
theorem c8_at_most_one_retained_artifact (target : ℚ) :
    (∀ (qas : List (Quality × AttemptResult)) (s : List String),
        s ∈ runTrace target initState [] qas → (s.filter isCandFile).length ≤ 1) ∧
    (∀ (st : LoopState) (fs : List String) (q : Quality) (ar : AttemptResult) (c : Candidate),
        fs.filter isCandFile = candFiles st.best → st.best = some c →
        (stepRunOps target st fs q ar).1.best ≠ st.best →
        ∃ cN, (stepRunOps target st fs q ar).1.best = some cN ∧
          (stepRunOps target st fs q ar).2
            = engineOps q ar ++ [FsOp.remove c.file, FsOp.create cN.file]) := by
  constructor
  · intro qas s hs
    exact trace_bound target qas initState [] rfl s hs
  · intro st fs q ar c hinv hbest hne
    have hE : (applyOps fs (engineOps q ar)).filter isCandFile = [c.file] := by
      rw [filter_applyOps_engine, hinv, hbest]; rfl
    have hmem : c.file ∈ applyOps fs (engineOps q ar) := by
      have hx : c.file ∈ (applyOps fs (engineOps q ar)).filter isCandFile := by
        rw [hE]; simp
      exact (List.mem_filter.mp hx).1
    have hrm : rmOps st (applyOps fs (engineOps q ar)) = [FsOp.remove c.file] := by
      unfold rmOps; rw [hbest]; simp [hmem]
    cases hd : decideStep target st q ar
    case keepBest => rw [stepRunOps_keep fs hd] at hne; exact absurd rfl hne
    case recordError => rw [stepRunOps_record fs hd] at hne; exact absurd rfl hne
    case takeBest =>
        rw [stepRunOps_takeBest fs hd]
        exact ⟨⟨bestPath q, ar.size, q⟩, rfl, by rw [hrm]; simp⟩
    case takeFallback =>
        rw [stepRunOps_takeFallback fs hd]
        exact ⟨⟨fallbackPath q, ar.size, q⟩, rfl, by rw [hrm]; simp⟩

theorem c8_witness :
    (["TMP/best_screen.pdf", "TMP/compressed_screen.pdf"]
        ∈ runTrace 5 initState [] [(Quality.screen, ⟨true, "ok", true, 3⟩)]) ∧
    ((["TMP/best_screen.pdf", "TMP/compressed_screen.pdf"].filter isCandFile).length ≤ 1) :=
  ⟨by decide,
    (c8_at_most_one_retained_artifact 5).1 [(Quality.screen, ⟨true, "ok", true, 3⟩)]
      ["TMP/best_screen.pdf", "TMP/compressed_screen.pdf"] (by decide)⟩

theorem fs2_props (fs0 : List String) (X : List FsOp)
    (hops : ∀ op ∈ X, strStartsWith tmpDirName (opPath op) = true) :
    (∀ p, strStartsWith tmpDirName p = true →
        p ∉ (applyOps fs0 X).filter (fun p => !(strStartsWith tmpDirName p))) ∧
    (∀ p, strStartsWith tmpDirName p = false →
        (p ∈ (applyOps fs0 X).filter (fun p => !(strStartsWith tmpDirName p)) ↔ p ∈ fs0)) := by
  constructor
  · intro p hp hm
    have h2 := (List.mem_filter.mp hm).2
    rw [hp] at h2
    simp at h2
  · intro p hp
    have hne : ∀ op ∈ X, opPath op ≠ p := by
      intro op hop he
      have := hops op hop
      rw [he, hp] at this
      exact Bool.false_ne_true this
    rw [List.mem_filter]
    constructor
    · rintro ⟨hm, _⟩
      exact (applyOps_mem_frame X fs0 hne).mp hm
    · intro hm
      exact ⟨(applyOps_mem_frame X fs0 hne).mpr hm, by rw [hp]; rfl⟩

theorem c9_lift (fs0 fsc : List String)
    (h1 : ∀ p, strStartsWith tmpDirName p = true → p ∉ fsc)
    (h2 : ∀ p, strStartsWith tmpDirName p = false → (p ∈ fsc ↔ p ∈ fs0))
    (h0 : ∀ p ∈ fs0, strStartsWith tmpDirName p = false) (R : List String)
    (hR : R = fsc ∨ R = "OUT" :: fsc) :
    (∀ p, strStartsWith tmpDirName p = true → p ∉ R) ∧
    (∀ p, p ≠ "OUT" → (p ∈ R ↔ p ∈ fs0)) := by
  constructor
  · intro p hp
    rcases hR with rfl | rfl
    · exact h1 p hp
    · intro hm
      rcases List.mem_cons.mp hm with he | hm2
      · rw [he] at hp
        exact absurd hp (by decide)
      · exact h1 p hp hm2
  · intro p hne
    have key : p ∈ fsc ↔ p ∈ fs0 := by
      by_cases ht : strStartsWith tmpDirName p = true
      · constructor
        · intro hm
          exact absurd hm (h1 p ht)
        · intro hm
          rw [h0 p hm] at ht
          exact absurd ht (by decide)
      · exact h2 p (by simpa using ht)
    rcases hR with rfl | rfl
    · exact key
    · rw [List.mem_cons]
      constructor
      · rintro (he | hm)
        · exact absurd he hne
        · exact key.mp hm
      · intro hm
        exact Or.inr (key.mpr hm)

/-- Claim C9 (confirmed).  For every iteration-path run (any attempt
sequence, with or without an exception interrupting the with-block body
at any operation boundary), after the run no path under the scoped
temporary directory exists, and every path other than the declared output
and the temporary-directory contents is in the file system afterwards
exactly when it was before: the run modifies no external state beyond the
output file and the temporary directory. -/
theorem c9_tempdir_removed_and_frame (fs0 : List String) (target : ℚ)
    (qas : List (Quality × AttemptResult)) (fault : Option Nat)
    (h0 : ∀ p ∈ fs0, strStartsWith tmpDirName p = false) :
    (∀ p, strStartsWith tmpDirName p = true → p ∉ fsAfterRun fs0 target qas fault) ∧
    (∀ p, p ≠ "OUT" → (p ∈ fsAfterRun fs0 target qas fault ↔ p ∈ fs0)) := by
  have hbody : ∀ op ∈ runOpsList target initState fs0 qas,
      strStartsWith tmpDirName (opPath op) = true :=
    runOps_tmp target qas initState fs0 bestTmp_init
  cases fault with
  | some n =>
      have hX : ∀ op ∈ (runOpsList target initState fs0 qas).take n,
          strStartsWith tmpDirName (opPath op) = true :=
        fun op hop => hbody op (List.mem_of_mem_take hop)
      have hp := fs2_props fs0 _ hX
      exact c9_lift fs0 _ hp.1 hp.2 h0 _ (Or.inl rfl)
  | none =>
      have hp := fs2_props fs0 _ hbody
      refine c9_lift fs0 _ hp.1 hp.2 h0 _ ?_
      have hred : fsAfterRun fs0 target qas none =
          match (runSteps target (initState, fs0) qas).1.best with
          | some c =>
              if c.file ∈ (applyOps fs0 (runOpsList target initState fs0 qas)).filter
                  (fun p => !(strStartsWith tmpDirName p)) then
                "OUT" :: (applyOps fs0 (runOpsList target initState fs0 qas)).filter
                  (fun p => !(strStartsWith tmpDirName p))
              else
                (applyOps fs0 (runOpsList target initState fs0 qas)).filter
                  (fun p => !(strStartsWith tmpDirName p))
          | none =>
              (applyOps fs0 (runOpsList target initState fs0 qas)).filter
                (fun p => !(strStartsWith tmpDirName p)) := rfl
      rw [hred]
      cases hb : (runSteps target (initState, fs0) qas).1.best with
      | none => exact Or.inl rfl
      | some c =>
          show ((if c.file ∈ (applyOps fs0 (runOpsList target initState fs0 qas)).filter
                  (fun p => !(strStartsWith tmpDirName p)) then
                "OUT" :: (applyOps fs0 (runOpsList target initState fs0 qas)).filter
                  (fun p => !(strStartsWith tmpDirName p))
              else
                (applyOps fs0 (runOpsList target initState fs0 qas)).filter
                  (fun p => !(strStartsWith tmpDirName p)))
              = (applyOps fs0 (runOpsList target initState fs0 qas)).filter
                  (fun p => !(strStartsWith tmpDirName p))) ∨
            ((if c.file ∈ (applyOps fs0 (runOpsList target initState fs0 qas)).filter
                  (fun p => !(strStartsWith tmpDirName p)) then
                "OUT" :: (applyOps fs0 (runOpsList target initState fs0 qas)).filter
                  (fun p => !(strStartsWith tmpDirName p))
              else
                (applyOps fs0 (runOpsList target initState fs0 qas)).filter
                  (fun p => !(strStartsWith tmpDirName p)))
              = "OUT" :: (applyOps fs0 (runOpsList target initState fs0 qas)).filter
                  (fun p => !(strStartsWith tmpDirName p)))
          by_cases hm : c.file ∈ (applyOps fs0 (runOpsList target initState fs0 qas)).filter
              (fun p => !(strStartsWith tmpDirName p))
          · rw [if_pos hm]
            exact Or.inr rfl
          · rw [if_neg hm]
            exact Or.inl rfl

theorem c9_witness :
    strStartsWith tmpDirName "doc.pdf" = false ∧
    "TMP/best_screen.pdf" ∉ fsAfterRun ["doc.pdf"] 5 [(Quality.screen, ⟨true, "ok", true, 3⟩)] none ∧
    ("doc.pdf" ∈ fsAfterRun ["doc.pdf"] 5 [(Quality.screen, ⟨true, "ok", true, 3⟩)] none ↔
      "doc.pdf" ∈ ["doc.pdf"]) :=
  ⟨by decide,
    (c9_tempdir_removed_and_frame ["doc.pdf"] 5 [(Quality.screen, ⟨true, "ok", true, 3⟩)] none
        (by decide)).1 "TMP/best_screen.pdf" (by decide),
    (c9_tempdir_removed_and_frame ["doc.pdf"] 5 [(Quality.screen, ⟨true, "ok", true, 3⟩)] none
        (by decide)).2 "doc.pdf" (by decide)⟩
